import Mathlib

/-!
Verification development for the `fmcardgen` draw/layout core
(`src/fmcardgen/draw.py`), shallowly embedded in Lean 4.

Conventions of the embedding:
* pixel widths and coordinates are `ℤ` (Python ints); tag-layout cursor
  positions are `ℚ` (PIL `textlength` returns a float);
* colors are modelled with exact rational channels in `[0, 255]`;
* fallible operations return `Except DrawErr`;
* the frontmatter module is not part of the sources, so its three entry
  points are modelled from the specification (§4.1) and are marked as such.
-/

/-! ## Text wrapping (`wrap_font_text`, draw.py lines 147-180) -/

/-- Python `str.isspace()`: true iff the string is nonempty and every
character is whitespace (restricted to the ASCII whitespace characters
that `Char.isWhitespace` recognises). -/
def pyIsSpace (s : String) : Bool :=
  !s.data.isEmpty && s.data.all Char.isWhitespace

/-- Helper for the chunk splitter: prepend a character to a run list,
merging it into the first run when it has the same whitespace class. -/
def addChar (c : Char) : List (List Char) → List (List Char)
  | [] => [[c]]
  | [] :: rest => [c] :: rest
  | (d :: run) :: rest =>
    if c.isWhitespace == d.isWhitespace then (c :: d :: run) :: rest
    else [c] :: (d :: run) :: rest

/-- Split a character list into maximal runs of whitespace /
non-whitespace characters. -/
def charRuns (cs : List Char) : List (List Char) :=
  cs.foldr addChar []

/-- Modelled from the spec: `TextWrapper._split_chunks` (Python stdlib
`textwrap`, an external collaborator of this repository), described in
§4.2 as splitting the text into "chunks (words and whitespace runs)":
maximal runs of non-whitespace characters and of whitespace characters,
in order, concatenating back to the input. -/
def splitChunks (s : String) : List String :=
  (charRuns s.data).map String.mk

/-- One iteration of the chunk loop of `wrap_font_text`
(draw.py lines 155-175).  State is `(lines, cur_line, cur_line_width)`. -/
def wrapStep (w : String → ℤ) (maxWidth : ℤ)
    (st : List (List String) × List String × ℤ) (chunk : String) :
    List (List String) × List String × ℤ :=
  let lines := st.1
  let cur := st.2.1
  let curW := st.2.2
  let width := w chunk
  if maxWidth < curW + width then
    if curW = 0 then (lines ++ [[chunk]], [], 0)
    else (lines ++ [cur], if pyIsSpace chunk then [] else [chunk], width)
  else (lines, cur ++ [chunk], curW + width)

/-- The `lines` accumulated by `wrap_font_text` over a chunk list,
including the final `if cur_line: lines.append(cur_line)`
(draw.py lines 151-178). -/
def wrapLines (w : String → ℤ) (maxWidth : ℤ) (chunks : List String) :
    List (List String) :=
  let st := chunks.foldl (wrapStep w maxWidth) ([], [], 0)
  if st.2.1.isEmpty then st.1 else st.1 ++ [st.2.1]

/-- Python `str.strip()`: drop leading and trailing whitespace
characters (again restricted to the characters `Char.isWhitespace`
recognises). -/
def pyStrip (s : String) : String :=
  String.mk
    (((s.data.dropWhile Char.isWhitespace).reverse.dropWhile
        Char.isWhitespace).reverse)

/-- `wrap_font_text` (draw.py lines 147-180): split into chunks, wrap
greedily against the pixel budget, join each line, strip it, and join the
lines with newlines.  The font is abstracted to its chunk-width measure
`w` (the `font.getsize(chunk)` width, an int). -/
def wrap_font_text (w : String → ℤ) (text : String) (maxWidth : ℤ) : String :=
  String.intercalate "\n"
    ((wrapLines w maxWidth (splitChunks text)).map
      (fun line => pyStrip (String.join line)))

/-- Variant of `wrapStep` following claim C3's reading of the overflow
case: a purely-whitespace overflow chunk is dropped entirely, neither
appearing on the next line nor contributing to its accumulated width.
This is NOT the source algorithm; it exists to be compared with
`wrapStep`. -/
def wrapStepClaimC3 (w : String → ℤ) (maxWidth : ℤ)
    (st : List (List String) × List String × ℤ) (chunk : String) :
    List (List String) × List String × ℤ :=
  let lines := st.1
  let cur := st.2.1
  let curW := st.2.2
  let width := w chunk
  if maxWidth < curW + width then
    if curW = 0 then (lines ++ [[chunk]], [], 0)
    else if pyIsSpace chunk then (lines ++ [cur], [], 0)
    else (lines ++ [cur], [chunk], width)
  else (lines, cur ++ [chunk], curW + width)

/-- Wrapping as claim C3 describes it (built on `wrapStepClaimC3`). -/
def wrapFontTextClaimC3 (w : String → ℤ) (text : String) (maxWidth : ℤ) :
    String :=
  let st := (splitChunks text).foldl (wrapStepClaimC3 w maxWidth) ([], [], 0)
  let lines := if st.2.1.isEmpty then st.1 else st.1 ++ [st.2.1]
  String.intercalate "\n" (lines.map (fun line => pyStrip (String.join line)))

/-! ## Tag-field layout (`draw_tag_field`, draw.py lines 90-117) -/

/-- Trace of the x-coordinate of the `xy` cursor in `draw_tag_field`
(draw.py lines 96-117): the cursor starts at `x`, each tag is drawn at
the current cursor, and afterwards the cursor advances by the tag's
measured width plus `spacingTotal` (which the source precomputes on line
97 as `field.spacing + field.padding.left + field.padding.right`).
The trace has one more entry than there are tags (the final cursor
value). Widths are `ℚ` because PIL `textlength` returns a float. -/
def cursorTrace (w : String → ℚ) (spacingTotal : ℚ) :
    ℚ → List String → List ℚ
  | x, [] => [x]
  | x, t :: ts => x :: cursorTrace w spacingTotal (x + w t + spacingTotal) ts

/-- The x-positions at which `draw_tag_field` draws the tags: the cursor
trace with `spacingTotal` expanded as in draw.py line 97. -/
def tagXs (w : String → ℚ) (x spacing padLeft padRight : ℚ)
    (tags : List String) : List ℚ :=
  cursorTrace w (spacing + padLeft + padRight) x tags

/-! ## Effective wrap width (`draw_text_field`, draw.py lines 71-73) -/

/-- The `max_width` computed on draw.py line 72:
`field.max_width if field.max_width else im.width - field.x`.
Python truthiness: both `None` and `0` fall back to `im.width - x`. -/
def effective_max_width (maxW : Option ℤ) (imWidth x : ℤ) : ℤ :=
  match maxW with
  | some n => if n ≠ 0 then n else imWidth - x
  | none => imWidth - x

/-- The text actually drawn by `draw_text_field` after the optional wrap
step (draw.py lines 71-73). -/
def wrapped_text (w : String → ℤ) (wrapFlag : Bool) (maxW : Option ℤ)
    (imWidth x : ℤ) (text : String) : String :=
  if wrapFlag then
    wrap_font_text w text (effective_max_width maxW imWidth x)
  else text

/-! ## Color conversion (`to_pil_color`, draw.py lines 193-207) -/

/-- A pydantic `Color` as seen through `Color.as_rgb_tuple()`: either an
opaque RGB triple, or an RGBA tuple whose alpha channel is a fraction in
`[0, 1]` (modelled as `ℚ`). -/
inductive PyColor where
  | rgb (r g b : ℕ)
  | rgba (r g b : ℕ) (a : ℚ)
deriving DecidableEq

/-- A PIL color tuple: 3 channels or 4 channels
(`PILColorTuple`, draw.py line 190). -/
inductive PILColorTuple where
  | rgb3 (r g b : ℕ)
  | rgb4 (r g b : ℕ) (a : ℤ)
deriving DecidableEq

/-- Python 3 `round()` on a rational: round half to even. -/
def pyRound (q : ℚ) : ℤ :=
  let f := ⌊q⌋
  let r := q - f
  if r < 1 / 2 then f
  else if r = 1 / 2 then (if f % 2 = 0 then f else f + 1)
  else f + 1

/-- `to_pil_color` (draw.py lines 193-207): identity on a 3-tuple;
for a 4-tuple, the fractional alpha is scaled by 255 and rounded with
Python `round()`. -/
def to_pil_color (color : PyColor) : PILColorTuple :=
  match color with
  | .rgb r g b => .rgb3 r g b
  | .rgba r g b a => .rgb4 r g b (pyRound (a * 255))

/-! ## Background rectangles (`_draw_rect`, draw.py lines 120-144) -/

/-- An RGBA pixel with exact rational channels; `r`, `g`, `b`, `a` range
over `[0, 255]` as in PIL's RGBA mode. -/
structure RGBA where
  r : ℚ
  g : ℚ
  b : ℚ
  a : ℚ
deriving DecidableEq

/-- An image as a pixel function; `_draw_rect` only ever works with
full-canvas layers, so the canvas bounds are left implicit. -/
def Img : Type := ℤ → ℤ → RGBA

/-- PIL `Image.alpha_composite` at one pixel: the exact source-over
operator on straight-alpha RGBA pixels with channels in `[0, 255]`. -/
def over (src dst : RGBA) : RGBA :=
  let sa := src.a / 255
  let da := dst.a / 255
  let oa := sa + da * (1 - sa)
  if oa = 0 then ⟨0, 0, 0, 0⟩
  else
    ⟨(src.r * sa + dst.r * da * (1 - sa)) / oa,
     (src.g * sa + dst.g * da * (1 - sa)) / oa,
     (src.b * sa + dst.b * da * (1 - sa)) / oa,
     oa * 255⟩

/-- `ImageDraw.rectangle(xy=(x0, y0, x1, y1), fill=c)` on a layer: fill
every pixel inside the (inclusive) rectangle with `c`, leaving the rest
of the layer unchanged. -/
def rectangleFill (c : RGBA) (x0 y0 x1 y1 : ℤ) (layer : Img) : Img :=
  fun px py =>
    if x0 ≤ px ∧ px ≤ x1 ∧ y0 ≤ py ∧ py ≤ y1 then c else layer px py

/-- A fully transparent layer (`Image.new(mode="RGBA", size=im.size,
color=(0, 0, 0, 0))`, draw.py line 138). -/
def transparentLayer : Img := fun _ _ => ⟨0, 0, 0, 0⟩

/-- `im.alpha_composite(overlay)` (draw.py line 144): pixelwise
source-over of the overlay onto the image. -/
def alphaCompositeImg (im overlay : Img) : Img :=
  fun px py => over (overlay px py) (im px py)

/-- `_draw_rect` (draw.py lines 120-144): expand the bounding box by the
padding, draw the filled rectangle into a fresh fully transparent layer
the size of the canvas, and alpha-composite that layer onto the image. -/
def draw_rect (im : Img) (bbox : ℤ × ℤ × ℤ × ℤ)
    (padLeft padTop padRight padBottom : ℤ) (color : RGBA) : Img :=
  let x0 := bbox.1 - padLeft
  let y0 := bbox.2.1 - padTop
  let x1 := bbox.2.2.1 + padRight
  let y1 := bbox.2.2.2 + padBottom
  alphaCompositeImg im (rectangleFill color x0 y0 x1 y1 transparentLayer)

/-! ## Field dispatch (`draw`, draw.py lines 14-65) -/

/-- The error kinds of §7.  Each corresponds to a Python exception that
propagates out of `draw`. -/
inductive DrawErr where
  | missingField
  | formatError
  | parseError
  | fontLoadError
  | templateLoadError
deriving DecidableEq

/-- A frontmatter value: a scalar or a sequence (the two shapes the draw
core distinguishes). -/
inductive FMVal where
  | scalar (s : String)
  | seq (vs : List String)
deriving DecidableEq

/-- The metadata mapping, as an association list. -/
def Metadata : Type := List (String × FMVal)

/-- Key lookup in the metadata mapping. -/
def mdLookup (fm : Metadata) (k : String) : Option FMVal :=
  (List.find? (fun p => p.1 == k) fm).map (fun p => p.2)

/-- Python `str()` of a frontmatter value (scalars are already strings;
for a sequence we use a bracketed rendering). -/
def fmValStr : FMVal → String
  | .scalar s => s
  | .seq vs => "[" ++ String.intercalate ", " vs ++ "]"

/-- One token of a `str.format`-style template: literal text, the
positional placeholder `{}`, or a named placeholder `{key}`. -/
inductive FmtTok where
  | lit (s : String)
  | pos
  | named (k : String)
deriving DecidableEq

/-- Map a fallible function over a list, stopping at the first error
(the semantics of a Python list comprehension / loop whose body can
raise). -/
def exceptMapList (f : α → Except DrawErr β) : List α → Except DrawErr (List β)
  | [] => .ok []
  | a :: as => do
    let b ← f a
    let bs ← exceptMapList f as
    .ok (b :: bs)

/-- Evaluate one format token: a named placeholder with no binding
raises (→ `FormatError`), as does `{}` when no positional argument was
supplied. -/
def formatTok (posArg : Option String) (kwargs : String → Option String) :
    FmtTok → Except DrawErr String
  | .lit s => .ok s
  | .pos =>
    match posArg with
    | some v => .ok v
    | none => .error .formatError
  | .named k =>
    match kwargs k with
    | some v => .ok v
    | none => .error .formatError

/-- Python `template.format(posArg, **kwargs)` over a tokenised
template: evaluate each token and concatenate. -/
def formatStr (fmt : List FmtTok) (posArg : Option String)
    (kwargs : String → Option String) : Except DrawErr String :=
  match fmt with
  | [] => .ok ""
  | t :: ts => do
    let s ← formatTok posArg kwargs t
    let rest ← formatStr ts posArg kwargs
    .ok (s ++ rest)

/-- Python truthiness of `field.format` (an optional template string):
`None` and the empty template are falsy. -/
def fmtTruthy : Option (List FmtTok) → Bool
  | none => false
  | some f => !f.isEmpty

/-- The multi-value format step of `draw` (draw.py lines 28-31):
`if field.format: values = [field.format.format(v, **{str(field.source): v})
for v in values]` — each element formatted independently, bound both
positionally and under the source-key name. -/
def multiFormatValues (format : Option (List FmtTok)) (source : String)
    (values : List String) : Except DrawErr (List String) :=
  if fmtTruthy format then
    exceptMapList
      (fun v =>
        formatStr (format.getD []) (some v)
          (fun k => if k == source then some v else none))
      values
  else .ok values

/-- The multi-value format step as claim C8 reads it: whenever a format
template is configured (i.e. is not `None`), every element is formatted
with it.  This is NOT the source behaviour (which also skips the empty
template); it exists to be compared with `multiFormatValues`. -/
def multiFormatValuesClaimC8 (format : Option (List FmtTok)) (source : String)
    (values : List String) : Except DrawErr (List String) :=
  match format with
  | some f =>
    exceptMapList
      (fun v =>
        formatStr f (some v) (fun k => if k == source then some v else none))
      values
  | none => .ok values

/-- A field's `default`: unset, a single shared string, or a per-source
mapping (draw.py branches on `isinstance(field.default, Mapping)`). -/
inductive FieldDefault where
  | unset
  | str (s : String)
  | map (m : List (String × String))
deriving DecidableEq

/-- The per-source defaults built by the aggregate branch of `draw`
(draw.py lines 35-38): a default mapping is used as-is; otherwise every
source key is assigned the single shared default, with `""` substituted
when the default is unset (`field.default or ""`). -/
def defaultsFor (d : FieldDefault) (sources : List String) :
    String → Option String :=
  match d with
  | .map m => fun k => (List.find? (fun p => p.1 == k) m).map (fun p => p.2)
  | .str s => fun k => if sources.contains k then some s else none
  | .unset => fun k => if sources.contains k then some "" else none

/-- The default passed by the single-source branch of `draw`
(draw.py lines 53-57): a mapping is indexed by the source key
(`field.default.get(field.source, None)`), otherwise the default is
passed through. -/
def singleDefault (d : FieldDefault) (source : String) : Option String :=
  match d with
  | .map m => (List.find? (fun p => p.1 == source) m).map (fun p => p.2)
  | .str s => some s
  | .unset => none

/-- Python `str()` of an optional value (`str(None) = "None"`). -/
def pyStrOpt : Option String → String
  | some s => s
  | none => "None"

/-- Python `str(field.default)` as passed by the multi branch
(draw.py line 24). -/
def pyStrDefault : FieldDefault → String
  | .unset => "None"
  | .str s => s
  | .map m =>
    "\x7b" ++ String.intercalate ", " (m.map (fun p => p.1 ++ ": " ++ p.2))
      ++ "\x7d"

/-- Python `str(field.format)` as passed by the aggregate branch
(draw.py line 42): `str(None)` is the literal template `"None"`. -/
def pyStrFmt : Option (List FmtTok) → List FmtTok
  | some f => f
  | none => [.lit "None"]

/-- Python `str(field.source)` as used by the multi branch
(draw.py line 23). -/
def pySourceStr : String ⊕ List String → String
  | .inl s => s
  | .inr l => "[" ++ String.intercalate ", " l ++ "]"

/-- Apply the configured value parser, failing with `ParseError` when it
rejects the raw value (spec §4.1(a)). -/
def applyParser (parser : Option (String → Option String)) (v : String) :
    Except DrawErr String :=
  match parser with
  | none => .ok v
  | some p =>
    match p v with
    | some r => .ok r
    | none => .error .parseError

/-- Modelled from the spec: `get_frontmatter_value` from the repository's
frontmatter module (absent from the sources), per §4.1(a): look the
source key up in the metadata; if absent and not optional fail with
`MissingFieldError`; if absent and optional substitute the default
(stringified by the caller via `str()`, hence `pyStrOpt`); a configured
parser is applied to a raw value and its failure is fatal. -/
def get_frontmatter_value (fm : Metadata) (source : String)
    (default : Option String) (missing_ok : Bool)
    (parser : Option (String → Option String)) : Except DrawErr String :=
  match mdLookup fm source with
  | some v => applyParser parser (fmValStr v)
  | none =>
    if missing_ok then .ok (pyStrOpt default) else .error .missingField

/-- Modelled from the spec: the per-key resolution step of
`get_frontmatter_formatted`, per §4.1(c): each key is resolved
independently; a present key yields its metadata value, an absent key
yields its per-key default when optional and `MissingFieldError`
otherwise. -/
def resolveSource (fm : Metadata) (defaults : String → Option String)
    (missing_ok : Bool) (k : String) : Except DrawErr (String × String) :=
  match mdLookup fm k with
  | some v => .ok (k, fmValStr v)
  | none =>
    if missing_ok then .ok (k, (defaults k).getD "")
    else .error .missingField

/-- Modelled from the spec: `get_frontmatter_formatted` from the
repository's frontmatter module (absent from the sources), per §4.1(c):
resolve every source key independently, then pass all of them as named
substitutions into one format template; a substitution referencing an
unresolved name fails with `FormatError`. -/
def get_frontmatter_formatted (fm : Metadata) (format : List FmtTok)
    (sources : List String) (defaults : String → Option String)
    (missing_ok : Bool) : Except DrawErr String := do
  let pairs ← exceptMapList (resolveSource fm defaults missing_ok) sources
  formatStr format none
    (fun name => (List.find? (fun p => p.1 == name) pairs).map (fun p => p.2))

/-- Modelled from the spec: `get_frontmatter_list` from the repository's
frontmatter module (absent from the sources), per §4.1(b): the metadata
value must be a sequence and each element is resolved independently with
the same parser rules; a missing key yields the empty sequence when
optional (an empty sequence is valid and renders nothing) and
`MissingFieldError` otherwise. -/
def get_frontmatter_list (fm : Metadata) (source : String)
    (default : String) (missing_ok : Bool)
    (parser : Option (String → Option String)) :
    Except DrawErr (List String) :=
  match mdLookup fm source with
  | some (.seq vs) => exceptMapList (applyParser parser) vs
  | some (.scalar v) => (applyParser parser v).map (fun r => [r])
  | none =>
    if missing_ok then .ok [default] else .error .missingField

/-- The sentinel meaning "use the backend's built-in font"
(`DEFAULT_FONT`, config.py line 18). -/
def DEFAULT_FONT : String := "__DEFAULT__"

/-- The slice of `TextFieldConfig` that the draw core consumes
(draw.py; the attribute set is the one of spec §3). -/
structure TextFieldConfig where
  source : String ⊕ List String
  multi : Bool
  optional : Bool
  default : FieldDefault
  format : Option (List FmtTok)
  parse : Option String
  font : String
  wrap : Bool
  max_width : Option ℤ
  x : ℤ
  y : ℤ

/-- The validated configuration the core consumes: a template path and
the field list (`CardGenConfig`, config.py). -/
structure CardGenConfig where
  template : String
  text_fields : List TextFieldConfig

/-- The external collaborators of the core, abstracted: the datetime
parser (`dateutil.parser.parse`), which fonts load, which template
files open, the loaded font's chunk-width measure, and the template
image's width. -/
structure Env where
  parseDate : String → Option String
  fontOk : String → Bool
  templateOk : String → Bool
  textWidth : String → ℤ
  imWidth : ℤ

/-- One drawing action recorded by the model (the observable effect of a
field on the canvas, at the level the claims need). -/
inductive DrawEvent where
  | textDraw (x y : ℤ) (text : String)
  | tagDraw (x y : ℤ) (tags : List String)
deriving DecidableEq

/-- `load_font` (draw.py lines 183-187): the sentinel loads the built-in
font; any other path must be a loadable font file. -/
def load_font (env : Env) (font : String) : Except DrawErr Unit :=
  if font = DEFAULT_FONT then .ok ()
  else if env.fontOk font then .ok () else .error .fontLoadError

/-- The failure-relevant behaviour of `draw_text_field`
(draw.py lines 68-87): load the font, wrap the text when `wrap` is set
(through `effective_max_width`), then draw at `(x, y)`. -/
def draw_text_field (env : Env) (field : TextFieldConfig) (text : String) :
    Except DrawErr DrawEvent := do
  let _ ← load_font env field.font
  let text := wrapped_text env.textWidth field.wrap field.max_width
    env.imWidth field.x text
  .ok (.textDraw field.x field.y text)

/-- The failure-relevant behaviour of `draw_tag_field`
(draw.py lines 90-117): load the font, then draw the tags starting at
`(x, y)`. -/
def draw_tag_field (env : Env) (field : TextFieldConfig)
    (tags : List String) : Except DrawErr DrawEvent := do
  let _ ← load_font env field.font
  .ok (.tagDraw field.x field.y tags)

/-- The body of the field loop of `draw` (draw.py lines 17-63): choose
the parser, then dispatch on `field.multi` / `isinstance(field.source,
list)`, resolving and formatting the value(s) and drawing them.  Any
error aborts the field. -/
def processField (env : Env) (fm : Metadata) (field : TextFieldConfig) :
    Except DrawErr DrawEvent :=
  let parser :=
    if field.parse == some "datetime" then some env.parseDate else none
  if field.multi then do
    let values ← get_frontmatter_list fm (pySourceStr field.source)
      (pyStrDefault field.default) field.optional parser
    let values ← multiFormatValues field.format (pySourceStr field.source)
      values
    draw_tag_field env field values
  else
    match field.source with
    | .inr sources => do
      let value ← get_frontmatter_formatted fm (pyStrFmt field.format)
        sources (defaultsFor field.default sources) field.optional
      draw_text_field env field value
    | .inl source => do
      let value ← get_frontmatter_value fm source
        (singleDefault field.default source) field.optional parser
      let value ←
        if fmtTruthy field.format then
          formatStr (field.format.getD []) (some value)
            (fun k => if k == source then some value else none)
        else .ok value
      draw_text_field env field value

/-- The field loop of `draw` (draw.py lines 17-63): process the fields
in order; the first error propagates and no later field is processed. -/
def drawFields (env : Env) (fm : Metadata) :
    List TextFieldConfig → Except DrawErr (List DrawEvent)
  | [] => .ok []
  | f :: fs => do
    let e ← processField env fm f
    let rest ← drawFields env fm fs
    .ok (e :: rest)

/-- `draw` (draw.py lines 14-65): open the template, then run the field
loop; the result is the list of drawing actions performed on the
template image. -/
def draw (env : Env) (fm : Metadata) (cnf : CardGenConfig) :
    Except DrawErr (List DrawEvent) :=
  if env.templateOk cnf.template then drawFields env fm cnf.text_fields
  else .error .templateLoadError

/-- Whether an `Except` result is a success. -/
def exceptOk : Except DrawErr α → Bool
  | .ok _ => true
  | .error _ => false

/-- Loop invariant of the chunk loop of `wrap_font_text`: every closed
line is within budget or a single chunk; the current line's total width
is bounded by the tracked `cur_line_width`; and the current line is
itself within budget or a single chunk. -/
def WrapInv (w : String → ℤ) (maxWidth : ℤ)
    (st : List (List String) × List String × ℤ) : Prop :=
  (∀ line ∈ st.1, (line.map w).sum ≤ maxWidth ∨ ∃ c, line = [c]) ∧
  (st.2.1.map w).sum ≤ st.2.2 ∧
  ((st.2.1.map w).sum ≤ maxWidth ∨ ∃ c, st.2.1 = [c])

/-- A concrete environment for witnesses: no datetime parsing, all fonts
load, all templates open, every chunk is one pixel wide, the template is
100 pixels wide. -/
def envToy : Env :=
  ⟨fun _ => none, fun _ => true, fun _ => true, fun _ => 1, 100⟩

/-- Concrete metadata for witnesses. -/
def fmToy : Metadata := [("title", FMVal.scalar "Hi")]

/-- A concrete field that resolves successfully against `fmToy`. -/
def fieldTitle : TextFieldConfig :=
  ⟨.inl "title", false, false, .unset, none, none, DEFAULT_FONT, false,
    none, 0, 0⟩

/-- A concrete non-optional field whose source key is absent from
`fmToy`. -/
def fieldMissing : TextFieldConfig :=
  ⟨.inl "absent", false, false, .unset, none, none, DEFAULT_FONT, false,
    none, 0, 0⟩

/-! ## Claim C1 -/

/-- C1: every background rectangle (single-value or tag field) is drawn
into a fresh fully transparent canvas-sized layer and alpha-composited
onto the canvas, so every pixel inside the padded bounding box becomes
the alpha blend (`over`) of the `bg` color over the prior canvas content
— and for a partially transparent `bg` over a non-black background the
result is a blended color, not the bare fill color. -/
theorem c1_draw_rect_alpha_blends :
    (∀ (im : Img) (x0 y0 x1 y1 padLeft padTop padRight padBottom : ℤ)
        (c : RGBA) (px py : ℤ),
      x0 - padLeft ≤ px → px ≤ x1 + padRight →
      y0 - padTop ≤ py → py ≤ y1 + padBottom →
      draw_rect im (x0, y0, x1, y1) padLeft padTop padRight padBottom c px py
        = over c (im px py)) ∧
    draw_rect (fun _ _ => ⟨255, 255, 255, 255⟩) (0, 0, 10, 10) 0 0 0 0
        ⟨255, 0, 0, 128⟩ 5 5 = ⟨255, 127, 127, 255⟩ ∧
    (⟨255, 127, 127, 255⟩ : RGBA) ≠ ⟨255, 0, 0, 128⟩ := by
  refine ⟨?_, ?_, ?_⟩
  · intro im x0 y0 x1 y1 padLeft padTop padRight padBottom c px py h1 h2 h3 h4
    simp only [draw_rect, alphaCompositeImg, rectangleFill]
    rw [if_pos ⟨h1, h2, h3, h4⟩]
  · simp only [draw_rect, alphaCompositeImg, rectangleFill, over]
    norm_num
  · simp only [ne_eq, RGBA.mk.injEq]
    norm_num

/-- Witness for C1: the in-box blend equation instantiated at a concrete
image, box, padding, color, and pixel. -/
theorem c1_draw_rect_alpha_blends_witness :
    draw_rect (fun _ _ => ⟨10, 20, 30, 40⟩) (0, 0, 10, 10) 1 2 3 4
        ⟨1, 2, 3, 4⟩ 5 5
      = over ⟨1, 2, 3, 4⟩ ((fun _ _ => (⟨10, 20, 30, 40⟩ : RGBA)) 5 5) :=
  c1_draw_rect_alpha_blends.1 (fun _ _ => ⟨10, 20, 30, 40⟩) 0 0 10 10 1 2 3 4
    ⟨1, 2, 3, 4⟩ 5 5 (by decide) (by decide) (by decide) (by decide)

/-! ## Claim C5 -/

/-- Python rounding lands within half a unit of the input. -/
theorem pyRound_dist_le_half (q : ℚ) : |(pyRound q : ℚ) - q| ≤ 1 / 2 := by
  have h0 : ((⌊q⌋ : ℤ) : ℚ) ≤ q := Int.floor_le q
  have h1 : q < (⌊q⌋ : ℤ) + 1 := Int.lt_floor_add_one q
  simp only [pyRound]
  split_ifs with hlt heq hev
  · rw [abs_le]
    constructor <;> [linarith; linarith]
  · rw [abs_le]
    constructor <;> [linarith; linarith]
  · rw [abs_le]
    push_cast
    constructor <;> [linarith; linarith]
  · have hgt : 1 / 2 < q - ⌊q⌋ := lt_of_le_of_ne (not_lt.mp hlt) (Ne.symm heq)
    rw [abs_le]
    push_cast
    constructor <;> [linarith; linarith]

/-- Python rounding returns a nearest integer: no integer is strictly
closer to the input. -/
theorem pyRound_nearest (q : ℚ) (n : ℤ) :
    |(pyRound q : ℚ) - q| ≤ |(n : ℚ) - q| := by
  by_cases hn : n = pyRound q
  · rw [hn]
  · have hz : n - pyRound q ≠ 0 := sub_ne_zero.mpr hn
    have h1 : (1 : ℤ) ≤ |n - pyRound q| := Int.one_le_abs hz
    have h1' : (1 : ℚ) ≤ |(n : ℚ) - (pyRound q : ℚ)| := by
      calc (1 : ℚ) = ((1 : ℤ) : ℚ) := by norm_num
        _ ≤ ((|n - pyRound q| : ℤ) : ℚ) := by exact_mod_cast h1
        _ = |(n : ℚ) - (pyRound q : ℚ)| := by push_cast [abs_sub_comm]; ring_nf
    have h2 : |(pyRound q : ℚ) - q| ≤ 1 / 2 := pyRound_dist_le_half q
    have h3 : |(n : ℚ) - (pyRound q : ℚ)| ≤ |(n : ℚ) - q| + |q - (pyRound q : ℚ)| :=
      abs_sub_le _ _ _
    have h4 : |q - (pyRound q : ℚ)| = |(pyRound q : ℚ) - q| := abs_sub_comm _ _
    linarith

/-- C5: `to_pil_color` is the identity on opaque RGB triples, and for a
color with a fractional alpha channel the output alpha is the Python
rounding of `alpha * 255`, which is a nearest integer; for alpha `1/2`
the output alpha is `128`, not the truncated `127`. -/
theorem c5_to_pil_color :
    (∀ r g b : ℕ, to_pil_color (.rgb r g b) = .rgb3 r g b) ∧
    (∀ (r g b : ℕ) (a : ℚ),
      to_pil_color (.rgba r g b a) = .rgb4 r g b (pyRound (a * 255))) ∧
    (∀ (a : ℚ) (n : ℤ),
      |(pyRound (a * 255) : ℚ) - a * 255| ≤ |(n : ℚ) - a * 255|) ∧
    (∀ r g b : ℕ, to_pil_color (.rgba r g b (1 / 2)) = .rgb4 r g b 128) := by
  refine ⟨fun r g b => rfl, fun r g b a => rfl, ?_, ?_⟩
  · intro a n
    exact pyRound_nearest (a * 255) n
  · intro r g b
    simp only [to_pil_color, PILColorTuple.rgb4.injEq]
    refine ⟨trivial, trivial, trivial, ?_⟩
    unfold pyRound
    norm_num

/-! ## Claim C2 -/

/-- One `wrapStep` preserves the wrap invariant (for a nonnegative
width measure and budget). -/
theorem wrapStep_preserves (w : String → ℤ) (maxWidth : ℤ)
    (h0 : 0 ≤ maxWidth) (hw : ∀ c, 0 ≤ w c)
    (st : List (List String) × List String × ℤ) (chunk : String)
    (h : WrapInv w maxWidth st) :
    WrapInv w maxWidth (wrapStep w maxWidth st chunk) := by
  obtain ⟨lines, cur, curW⟩ := st
  obtain ⟨hL, hsum, hcur⟩ := h
  simp only [WrapInv, wrapStep] at *
  have memAppend :
      ∀ line ∈ lines ++ [cur],
        (line.map w).sum ≤ maxWidth ∨ ∃ c, line = [c] := by
    intro line hline
    rcases List.mem_append.mp hline with h' | h'
    · exact hL line h'
    · simp only [List.mem_singleton] at h'
      subst h'
      exact hcur
  split_ifs with hover hzero hsp
  · refine ⟨?_, by simp, Or.inl (by simpa using h0)⟩
    intro line hline
    rcases List.mem_append.mp hline with h' | h'
    · exact hL line h'
    · simp only [List.mem_singleton] at h'
      subst h'
      exact Or.inr ⟨chunk, rfl⟩
  · exact ⟨memAppend, by simpa using hw chunk, Or.inl (by simpa using h0)⟩
  · exact ⟨memAppend, by simp, Or.inr ⟨chunk, rfl⟩⟩
  · refine ⟨hL, ?_, Or.inl ?_⟩
    · simp only [List.map_append, List.sum_append, List.map_cons,
        List.map_nil, List.sum_cons, List.sum_nil]
      linarith
    · simp only [List.map_append, List.sum_append, List.map_cons,
        List.map_nil, List.sum_cons, List.sum_nil]
      have hfits := not_lt.mp hover
      linarith

/-- The wrap invariant holds after folding any chunk list. -/
theorem wrapFold_inv (w : String → ℤ) (maxWidth : ℤ) (h0 : 0 ≤ maxWidth)
    (hw : ∀ c, 0 ≤ w c) (chunks : List String) :
    ∀ st, WrapInv w maxWidth st →
      WrapInv w maxWidth (chunks.foldl (wrapStep w maxWidth) st) := by
  induction chunks with
  | nil =>
    intro st h
    simpa using h
  | cons c cs ih =>
    intro st h
    simp only [List.foldl_cons]
    exact ih _ (wrapStep_preserves w maxWidth h0 hw st c h)

/-- C2: for every (nonnegative) chunk-width measure, text, and positive
pixel budget, every line produced by `wrap_font_text`'s chunk loop has
total measured width within the budget, except that a single chunk whose
own width exceeds the budget is a line by itself, unchanged.
(Termination is inherent: `wrapLines` is a total function.) -/
theorem c2_wrap_lines_within_budget (w : String → ℤ) (text : String)
    (maxWidth : ℤ) (hw : ∀ c, 0 ≤ w c) (hpos : 0 < maxWidth) :
    ∀ line ∈ wrapLines w maxWidth (splitChunks text),
      (line.map w).sum ≤ maxWidth ∨ ∃ c, line = [c] ∧ maxWidth < w c := by
  have h0 : 0 ≤ maxWidth := le_of_lt hpos
  have hinv := wrapFold_inv w maxWidth h0 hw (splitChunks text) ([], [], 0)
    ⟨by simp, by simp, Or.inl (by simpa using h0)⟩
  obtain ⟨hL, hsum, hcur⟩ := hinv
  intro line hline
  have key : (line.map w).sum ≤ maxWidth ∨ ∃ c, line = [c] := by
    simp only [wrapLines] at hline
    split_ifs at hline with hemp
    · exact hL line hline
    · rcases List.mem_append.mp hline with h' | h'
      · exact hL line h'
      · simp only [List.mem_singleton] at h'
        subst h'
        exact hcur
  rcases key with h' | ⟨c, rfl⟩
  · exact Or.inl h'
  · by_cases hc : w c ≤ maxWidth
    · exact Or.inl (by simpa using hc)
    · exact Or.inr ⟨c, rfl, not_le.mp hc⟩

/-- Witness for C2: the line-width property instantiated at a concrete
width measure, text, and budget. -/
theorem c2_wrap_lines_within_budget_witness :
    (["aa", " ", "b"].map (fun s => (s.length : ℤ))).sum ≤ 5 ∨
      ∃ c, ["aa", " ", "b"] = [c] ∧ 5 < (c.length : ℤ) :=
  c2_wrap_lines_within_budget (fun s => (s.length : ℤ)) "aa b" 5
    (fun c => Int.natCast_nonneg _) (by decide) ["aa", " ", "b"] (by decide)

/-! ## Claim C4 -/

/-- `addChar` prepends its character to the flattened runs. -/
theorem addChar_flatten (c : Char) (L : List (List Char)) :
    (addChar c L).flatten = c :: L.flatten := by
  match L with
  | [] => rfl
  | [] :: rest =>
    simp [addChar]
  | (d :: run) :: rest =>
    simp only [addChar]
    split_ifs with h
    · simp
    · simp

/-- The runs produced by `charRuns` flatten back to the input. -/
theorem charRuns_flatten (cs : List Char) : (charRuns cs).flatten = cs := by
  induction cs with
  | nil => rfl
  | cons c cs ih =>
    simp only [charRuns, List.foldr_cons] at *
    rw [addChar_flatten, ih]

/-- Folding string concatenation over packed character runs packs their
flattening. -/
theorem stringJoin_mk (L : List (List Char)) (acc : List Char) :
    (L.map String.mk).foldl (fun r s => r ++ s) (String.mk acc)
      = String.mk (acc ++ L.flatten) := by
  induction L generalizing acc with
  | nil => simp
  | cons l L ih =>
    simp only [List.map_cons, List.foldl_cons]
    have hmk : String.mk acc ++ String.mk l = String.mk (acc ++ l) := rfl
    rw [hmk, ih]
    simp

/-- The chunks of `splitChunks` concatenate back to the input text. -/
theorem splitChunks_join (s : String) : String.join (splitChunks s) = s := by
  have h := stringJoin_mk (charRuns s.data) []
  simp only [List.nil_append, charRuns_flatten] at h
  exact h

/-- When every remaining chunk fits, the chunk loop simply appends all
of them to the current line. -/
theorem wrapFold_fits (w : String → ℤ) (maxWidth : ℤ) :
    ∀ (chunks : List String) (lines : List (List String))
      (cur : List String) (curW : ℤ),
      (∀ c ∈ chunks, 0 ≤ w c) →
      curW + (chunks.map w).sum ≤ maxWidth →
      chunks.foldl (wrapStep w maxWidth) (lines, cur, curW)
        = (lines, cur ++ chunks, curW + (chunks.map w).sum) := by
  intro chunks
  induction chunks with
  | nil =>
    intro lines cur curW _ _
    simp
  | cons c cs ih =>
    intro lines cur curW hw htotal
    have hcs : (0 : ℤ) ≤ (cs.map w).sum := by
      apply List.sum_nonneg
      intro a ha
      obtain ⟨b, hb, rfl⟩ := List.mem_map.mp ha
      exact hw b (List.mem_cons_of_mem _ hb)
    have hsum : (List.map w (c :: cs)).sum = w c + (cs.map w).sum := by
      simp
    have hfits : ¬maxWidth < curW + w c := by
      rw [not_lt]
      rw [hsum] at htotal
      linarith
    simp only [List.foldl_cons]
    have hstep : wrapStep w maxWidth (lines, cur, curW) c
        = (lines, cur ++ [c], curW + w c) := by
      simp only [wrapStep]
      rw [if_neg hfits]
    rw [hstep, ih lines (cur ++ [c]) (curW + w c)
      (fun a ha => hw a (List.mem_cons_of_mem _ ha)) (by rw [hsum] at htotal; linarith)]
    simp only [List.append_assoc, List.singleton_append, hsum]
    rw [add_assoc]

/-- Counterexample to C4 as stated: the text `" a"` fits the budget in
total (every chunk has width 1), yet `wrap_font_text` does not return it
unchanged — the output line is stripped of its leading whitespace. -/
theorem c4_counterexample :
    (∀ c ∈ splitChunks " a", (0 : ℤ) ≤ (fun _ => (1 : ℤ)) c) ∧
    ((splitChunks " a").map (fun _ => (1 : ℤ))).sum ≤ 100 ∧
    wrap_font_text (fun _ => 1) " a" 100 ≠ " a" := by
  refine ⟨by decide, by decide, by decide⟩

/-- C4 (amended): when the total measured width of the text's chunks is
within the budget (for a nonnegative width measure), `wrap_font_text`
returns the input stripped of leading and trailing whitespace — in
particular unchanged whenever the input has no leading or trailing
whitespace. -/
theorem c4_short_text_stripped (w : String → ℤ) (text : String)
    (maxWidth : ℤ) (hw : ∀ c ∈ splitChunks text, 0 ≤ w c)
    (htotal : ((splitChunks text).map w).sum ≤ maxWidth) :
    wrap_font_text w text maxWidth = pyStrip text := by
  have hfold := wrapFold_fits w maxWidth (splitChunks text) [] [] 0 hw
    (by simpa using htotal)
  unfold wrap_font_text wrapLines
  rw [hfold]
  simp only [List.nil_append]
  match hchunks : splitChunks text with
  | [] =>
    have htext : text = "" := by
      have := splitChunks_join text
      rw [hchunks] at this
      simpa using this.symm
    subst htext
    rfl
  | c :: cs =>
    have hjoin : String.join (c :: cs) = text := by
      rw [← hchunks]
      exact splitChunks_join text
    simp only [List.isEmpty_cons, Bool.false_eq_true, if_false, List.map_cons,
      List.map_nil, List.nil_append]
    rw [hjoin]
    rfl

/-- Witness for C4 (amended): a concrete short text with no surrounding
whitespace is returned unchanged. -/
theorem c4_short_text_stripped_witness :
    wrap_font_text (fun _ => 1) "ab cd" 100 = pyStrip "ab cd" :=
  c4_short_text_stripped (fun _ => 1) "ab cd" 100 (by decide) (by decide)

/-! ## Claim C3 -/

/-- Counterexample to C3 as stated: with chunk widths
`"aaa" ↦ 8`, `" " ↦ 5`, `"bbbbbb" ↦ 6` and budget 10, the dropped
whitespace chunk still contributes its width to the next line's
accumulated width, forcing an extra (empty) line break before
`"bbbbbb"`; under C3's reading no such break occurs. -/
theorem c3_counterexample :
    wrap_font_text (fun s => if s = "aaa" then 8 else if s = " " then 5 else 6)
        "aaa bbbbbb" 10 = "aaa\n\nbbbbbb" ∧
    wrapFontTextClaimC3
        (fun s => if s = "aaa" then 8 else if s = " " then 5 else 6)
        "aaa bbbbbb" 10 = "aaa\nbbbbbb" ∧
    wrap_font_text (fun s => if s = "aaa" then 8 else if s = " " then 5 else 6)
        "aaa bbbbbb" 10 ≠
      wrapFontTextClaimC3
        (fun s => if s = "aaa" then 8 else if s = " " then 5 else 6)
        "aaa bbbbbb" 10 :=
  ⟨by decide, by decide, by decide⟩

/-- C3 (amended): when adding a chunk to a current line with nonzero
accumulated width would exceed the budget, the current line is closed
and the new line contains the overflowing chunk — unless the chunk is
purely whitespace, in which case its text is dropped but its width
still becomes the new line's accumulated width. -/
theorem c3_overflow_step (w : String → ℤ) (maxWidth : ℤ)
    (lines : List (List String)) (cur : List String) (curW : ℤ)
    (chunk : String) (hnz : curW ≠ 0) (hover : maxWidth < curW + w chunk) :
    wrapStep w maxWidth (lines, cur, curW) chunk
      = (lines ++ [cur], if pyIsSpace chunk then [] else [chunk], w chunk) := by
  simp only [wrapStep]
  rw [if_pos hover, if_neg hnz]

/-- Witness for C3 (amended): the overflow step at a concrete state and
whitespace chunk. -/
theorem c3_overflow_step_witness :
    wrapStep (fun _ => (5 : ℤ)) 10 ([], ["aaa"], 8) " "
      = ([] ++ [["aaa"]], if pyIsSpace " " then [] else [" "],
          (fun _ : String => (5 : ℤ)) " ") :=
  c3_overflow_step (fun _ => (5 : ℤ)) 10 [] ["aaa"] 8 " " (by decide) (by decide)

/-! ## Claim C6 -/

/-- Successive entries of the cursor trace differ by the drawn tag's
width plus the precomputed spacing. -/
theorem cursorTrace_get?_succ (w : String → ℚ) (s : ℚ) :
    ∀ (tags : List String) (x : ℚ) (i : ℕ) (xi : ℚ) (ti : String),
      (cursorTrace w s x tags).get? i = some xi →
      tags.get? i = some ti →
      (cursorTrace w s x tags).get? (i + 1) = some (xi + w ti + s) := by
  intro tags
  induction tags with
  | nil =>
    intro x i xi ti _ hti
    simp at hti
  | cons t ts ih =>
    intro x i xi ti hxi hti
    match i with
    | 0 =>
      simp only [cursorTrace, List.get?] at hxi hti ⊢
      obtain rfl : x = xi := by injection hxi
      obtain rfl : t = ti := by injection hti
      cases ts <;> rfl
    | i + 1 =>
      simp only [cursorTrace, List.get?] at hxi hti ⊢
      exact ih (x + w t + s) i xi ti hxi hti

/-- C6: `draw_tag_field` starts its cursor at `x` and, after drawing each
tag at the current cursor, advances the cursor by exactly
`tag_width + spacing + padding.left + padding.right`. -/
theorem c6_tag_cursor_advance (w : String → ℚ)
    (x spacing padLeft padRight : ℚ) (tags : List String) :
    (tagXs w x spacing padLeft padRight tags).get? 0 = some x ∧
    ∀ (i : ℕ) (xi : ℚ) (ti : String),
      (tagXs w x spacing padLeft padRight tags).get? i = some xi →
      tags.get? i = some ti →
      (tagXs w x spacing padLeft padRight tags).get? (i + 1)
        = some (xi + w ti + spacing + padLeft + padRight) := by
  constructor
  · cases tags <;> rfl
  · intro i xi ti hxi hti
    have h := cursorTrace_get?_succ w (spacing + padLeft + padRight) tags x i
      xi ti hxi hti
    rw [show xi + w ti + spacing + padLeft + padRight
        = xi + w ti + (spacing + padLeft + padRight) by ring]
    exact h

/-- Witness for C6: with `spacing = 10`, tags `["a", "bb"]`, and the
length measure, the second tag's x-cursor is
`x + width "a" + 10 + padding.left + padding.right`. -/
theorem c6_tag_cursor_advance_witness :
    (tagXs (fun s => (s.length : ℚ)) 100 10 3 4 ["a", "bb"]).get? 1
      = some (100 + ((("a" : String).length : ℚ)) + 10 + 3 + 4) :=
  (c6_tag_cursor_advance (fun s => (s.length : ℚ)) 100 10 3 4 ["a", "bb"]).2
    0 100 "a" rfl rfl

/-! ## Claim C7 -/

/-- Counterexample to C7 as stated: a field whose `max_width` is set to
`0` does not get `0` as the effective wrap width — Python's truthiness
test `if field.max_width` treats `0` like `None`, so the fallback
`im.width - x` (here `100 - 10 = 90`) is used instead. -/
theorem c7_counterexample :
    effective_max_width (some 0) 100 10 = 90 ∧ (90 : ℤ) ≠ 0 :=
  ⟨by decide, by decide⟩

/-- C7 (amended): the effective maximum width passed to Text Wrapping is
the field's `max_width` whenever it is set and nonzero; when it is unset
— or set to the falsy value `0` — the image width minus the field's `x`
coordinate is used. -/
theorem c7_effective_max_width (w : String → ℤ) (text : String)
    (imWidth x : ℤ) :
    (∀ n : ℤ, n ≠ 0 →
      wrapped_text w true (some n) imWidth x text
        = wrap_font_text w text n) ∧
    wrapped_text w true (some 0) imWidth x text
      = wrap_font_text w text (imWidth - x) ∧
    wrapped_text w true none imWidth x text
      = wrap_font_text w text (imWidth - x) := by
  refine ⟨?_, ?_, ?_⟩
  · intro n hn
    simp only [wrapped_text, effective_max_width, if_pos hn, if_true]
  · simp only [wrapped_text, effective_max_width]
    norm_num
  · simp only [wrapped_text, effective_max_width, if_true]

/-- Witness for C7 (amended): a concrete nonzero `max_width` is passed
through to the wrapping step unchanged. -/
theorem c7_effective_max_width_witness :
    wrapped_text (fun _ => 1) true (some 50) 100 10 "a"
      = wrap_font_text (fun _ => 1) "a" 50 :=
  (c7_effective_max_width (fun _ => 1) "a" 100 10).1 50 (by decide)

/-! ## Claim C8 -/

/-- Counterexample to C8 as stated: with an empty format template
configured, `draw` leaves the values unformatted (Python's
`if field.format:` is false for the empty string), whereas formatting
each element with the empty template would yield empty strings. -/
theorem c8_counterexample :
    multiFormatValues (some []) "tags" ["a"] = .ok ["a"] ∧
    multiFormatValuesClaimC8 (some []) "tags" ["a"] = .ok [""] ∧
    multiFormatValues (some []) "tags" ["a"]
      ≠ multiFormatValuesClaimC8 (some []) "tags" ["a"] := by
  refine ⟨rfl, rfl, ?_⟩
  intro h
  have h' : (Except.ok ["a"] : Except DrawErr (List String))
      = Except.ok [""] := h
  simp at h'

/-- C8 (amended): for a multi-value field with a nonempty format
template configured, each resolved element is formatted independently —
the head's result is computed from the head alone and the tail is the
same formatting of the tail — with the element supplied both as the
positional argument and as a named substitution under the field's
source-key name (and no other name is bound). -/
theorem c8_multi_format (f : List FmtTok) (source v : String)
    (vs : List String) (hf : f ≠ []) :
    (multiFormatValues (some f) source (v :: vs)
      = do
          let hd ← formatStr f (some v)
            (fun k => if k == source then some v else none)
          let tl ← multiFormatValues (some f) source vs
          Except.ok (hd :: tl)) ∧
    formatStr [FmtTok.pos] (some v)
      (fun k => if k == source then some v else none) = .ok v ∧
    formatStr [FmtTok.named source] (some v)
      (fun k => if k == source then some v else none) = .ok v ∧
    (∀ k, k ≠ source →
      formatStr [FmtTok.named k] (some v)
        (fun k' => if k' == source then some v else none)
          = .error .formatError) := by
  refine ⟨?_, ?_, ?_, ?_⟩
  · cases f with
    | nil => exact absurd rfl hf
    | cons a as => rfl
  · show Except.ok (v ++ "") = Except.ok v
    rw [String.append_empty]
  · simp only [formatStr, formatTok, beq_self_eq_true, if_true]
    show Except.ok (v ++ "") = Except.ok v
    rw [String.append_empty]
  · intro k hk
    have hbeq : (k == source) = false := beq_eq_false_iff_ne.mpr hk
    simp only [formatStr, formatTok, hbeq]
    rfl

/-- Witness for C8 (amended): the elementwise formatting equation and
binding facts at a concrete template, source key, and value list. -/
theorem c8_multi_format_witness :
    (multiFormatValues (some [FmtTok.pos]) "tags" ("x" :: ["y"])
      = do
          let hd ← formatStr [FmtTok.pos] (some "x")
            (fun k => if k == "tags" then some "x" else none)
          let tl ← multiFormatValues (some [FmtTok.pos]) "tags" ["y"]
          Except.ok (hd :: tl)) ∧
    formatStr [FmtTok.pos] (some "x")
      (fun k => if k == "tags" then some "x" else none) = .ok "x" ∧
    formatStr [FmtTok.named "tags"] (some "x")
      (fun k => if k == "tags" then some "x" else none) = .ok "x" ∧
    (∀ k, k ≠ "tags" →
      formatStr [FmtTok.named k] (some "x")
        (fun k' => if k' == "tags" then some "x" else none)
          = .error .formatError) :=
  c8_multi_format [FmtTok.pos] "tags" "x" ["y"] (by decide)

/-! ## Claim C9 -/

/-- An error while processing any field propagates out of the field
loop: fields after the failing one are never reached. -/
theorem drawFields_error (env : Env) (fm : Metadata) :
    ∀ (fs1 : List TextFieldConfig) (f : TextFieldConfig)
      (fs2 : List TextFieldConfig) (e : DrawErr),
      (∀ g ∈ fs1, exceptOk (processField env fm g) = true) →
      processField env fm f = .error e →
      drawFields env fm (fs1 ++ f :: fs2) = .error e := by
  intro fs1
  induction fs1 with
  | nil =>
    intro f fs2 e _ herr
    simp only [List.nil_append, drawFields]
    rw [herr]
    rfl
  | cons g gs ih =>
    intro f fs2 e hok herr
    have hg : exceptOk (processField env fm g) = true :=
      hok g (List.mem_cons_self g gs)
    obtain ⟨ev, hev⟩ : ∃ ev, processField env fm g = .ok ev := by
      cases hpf : processField env fm g with
      | ok ev => exact ⟨ev, rfl⟩
      | error e' =>
        rw [hpf] at hg
        simp [exceptOk] at hg
    simp only [List.cons_append, drawFields, List.append_eq]
    rw [hev, ih f fs2 e (fun a ha => hok a (List.mem_cons_of_mem _ ha)) herr]
    rfl

/-- C9: if processing some field fails (missing field, format, parse,
font load — any `DrawErr`), the error propagates uncaught out of `draw`
with no recovery, retry, or partial result: once the fields before it
succeed, `draw` returns exactly that field's error, whatever fields
follow. -/
theorem c9_first_error_aborts (env : Env) (fm : Metadata) (tmpl : String)
    (fs1 : List TextFieldConfig) (f : TextFieldConfig)
    (fs2 : List TextFieldConfig) (e : DrawErr)
    (htmpl : env.templateOk tmpl = true)
    (hok : ∀ g ∈ fs1, exceptOk (processField env fm g) = true)
    (herr : processField env fm f = .error e) :
    draw env fm ⟨tmpl, fs1 ++ f :: fs2⟩ = .error e := by
  have hdraw : draw env fm ⟨tmpl, fs1 ++ f :: fs2⟩
      = drawFields env fm (fs1 ++ f :: fs2) := by
    simp only [draw, htmpl, if_true]
  rw [hdraw]
  exact drawFields_error env fm fs1 f fs2 e hok herr

/-- Witness for C9: with a succeeding field before it and another field
after it, the missing-source field's error is the result of `draw`. -/
theorem c9_first_error_aborts_witness :
    draw envToy fmToy ⟨"template.png", [fieldTitle] ++ fieldMissing :: [fieldTitle]⟩
      = .error .missingField :=
  c9_first_error_aborts envToy fmToy "template.png" [fieldTitle] fieldMissing
    [fieldTitle] .missingField rfl (by decide) rfl

/-! ## Claim C10 -/

/-- With `missing_ok`, resolving the source keys never fails: present
keys yield their metadata value and absent keys their per-key default. -/
theorem exceptMapList_resolve (fm : Metadata)
    (defaults : String → Option String) :
    ∀ sources : List String,
      exceptMapList (resolveSource fm defaults true) sources
        = .ok (sources.map (fun k =>
            (k, match mdLookup fm k with
                | some v => fmValStr v
                | none => (defaults k).getD ""))) := by
  intro sources
  induction sources with
  | nil => rfl
  | cons a l ih =>
    simp only [exceptMapList, List.map_cons]
    have hstep : resolveSource fm defaults true a
        = .ok (a, match mdLookup fm a with
            | some v => fmValStr v
            | none => (defaults a).getD "") := by
      cases hl : mdLookup fm a with
      | none => simp [resolveSource, hl]
      | some v => simp [resolveSource, hl]
    rw [hstep, ih]
    rfl

/-- Looking a key up among the resolved pairs finds that key's value. -/
theorem find?_key_map (g : String → String) :
    ∀ (l : List String) (k : String), k ∈ l →
      List.find? (fun p => p.1 == k) (l.map (fun k' => (k', g k')))
        = some (k, g k) := by
  intro l
  induction l with
  | nil =>
    intro k hk
    cases hk
  | cons a l ih =>
    intro k hk
    simp only [List.map_cons]
    by_cases hbeq : (a == k) = true
    · have ha : a = k := eq_of_beq hbeq
      subst ha
      rw [List.find?_cons_of_pos]
      simp
    · rw [List.find?_cons_of_neg]
      · rcases List.mem_cons.mp hk with h | h
        · exact absurd (beq_self_eq_true k) (h ▸ hbeq)
        · exact ih k h
      · simpa using hbeq

/-- C10: for an aggregate (list-of-keys, non-multi) field whose default
is not a mapping, `draw` assigns every source key the single shared
default — the empty string when the default is unset — so a missing
optional key is substituted as `""` in the format template rather than
failing or rendering a `None` placeholder. -/
theorem c10_aggregate_defaults (sources : List String) (k : String)
    (fm : Metadata) (hk : k ∈ sources) (hmiss : mdLookup fm k = none) :
    (∀ s, defaultsFor (FieldDefault.str s) sources k = some s) ∧
    defaultsFor FieldDefault.unset sources k = some "" ∧
    get_frontmatter_formatted fm [FmtTok.named k] sources
      (defaultsFor FieldDefault.unset sources) true = .ok "" := by
  have hc : sources.contains k = true := List.elem_iff.mpr hk
  refine ⟨?_, ?_, ?_⟩
  · intro s
    simp [defaultsFor, hc, hk]
  · simp [defaultsFor, hc, hk]
  · unfold get_frontmatter_formatted
    rw [exceptMapList_resolve]
    show formatStr [FmtTok.named k] none _ = .ok ""
    simp only [formatStr, formatTok]
    rw [find?_key_map (fun k' =>
        match mdLookup fm k' with
        | some v => fmValStr v
        | none => ((defaultsFor FieldDefault.unset sources) k').getD "")
      sources k hk]
    simp only [hmiss, Option.map_some, defaultsFor, hc, if_true,
      Option.getD_some]
    rfl

/-- Witness for C10: the shared-default construction and the empty-string
substitution at a concrete field shape. -/
theorem c10_aggregate_defaults_witness :
    (∀ s, defaultsFor (FieldDefault.str s) ["author", "title"] "author"
        = some s) ∧
    defaultsFor FieldDefault.unset ["author", "title"] "author" = some "" ∧
    get_frontmatter_formatted fmToy [FmtTok.named "author"]
      ["author", "title"]
      (defaultsFor FieldDefault.unset ["author", "title"]) true = .ok "" :=
  c10_aggregate_defaults ["author", "title"] "author" fmToy (by decide) rfl
